import Mathlib

/-!
Verification of the Isengard job-orchestration core against its
natural-language specification.

The definitions below are shallow embeddings of the Python source under
`src/`: pure fragments become Lean functions, dictionary state becomes
association lists with Python `dict` semantics, wall-clock instants and
float-valued metrics become rationals, and Python `int()` truncation is
modelled explicitly.  Each claim of the specification is then stated and
settled as a theorem about these embeddings.
-/

namespace Isengard

/-- Python `int(x)` on a real-valued argument: truncation toward zero. -/
def intTrunc (x : ℚ) : ℤ := if 0 ≤ x then ⌊x⌋ else ⌈x⌉

/-- Association list with Python `dict` semantics (insertion order kept,
assignment replaces in place or appends at the end). -/
abbrev Dict (β : Type) := List (String × β)

/-- `d.get(k)` / `d[k]` lookup. -/
def dictGet {β : Type} (d : Dict β) (k : String) : Option β :=
  (d.find? (fun p => p.1 == k)).map (·.2)

/-- `d[k] = v` assignment: replace the first binding of `k`, or append. -/
def dictSet {β : Type} (d : Dict β) (k : String) (v : β) : Dict β :=
  if d.any (fun p => p.1 == k) then
    d.map (fun p => if p.1 == k then (k, v) else p)
  else
    d ++ [(k, v)]

/-- Terminal job statuses (`completed`, `failed`, `cancelled`);
`src/apps/api/src/routes/training.py` line 268 and
`src/packages/shared/src/redis_client.py` line 346 use this list. -/
def isTerminalStatus (s : String) : Bool :=
  s == "completed" || s == "failed" || s == "cancelled"

/-- A progress event as published on `isengard:progress:<job_id>`
(`redis_client.publish_progress`); only the fields the claims inspect are
kept, the remaining payload does not influence any control flow. -/
structure ProgressEvent where
  jobId : String
  status : String
  progress : ℚ
  message : String
  deriving Repr, DecidableEq

/-- Last `n` elements of a list. -/
def takeLastN {α : Type} (n : ℕ) (l : List α) : List α := l.drop (l.length - n)

/-- `redis_client.publish_progress` appends the event with
`XADD … MAXLEN 100`: the stream keeps the last 100 events
(`src/packages/shared/src/redis_client.py` line 295). -/
def publishProgress (stream : List ProgressEvent) (e : ProgressEvent) : List ProgressEvent :=
  takeLastN 100 (stream ++ [e])

/-! ## Worker progress throttle (`src/apps/worker/src/job_processor.py` 287-306) -/

/-- `MIN_EMIT_INTERVAL = 0.5` seconds. -/
def minEmitInterval : ℚ := 1/2

/-- Throttle state of `on_progress`: `last_emitted_step` (initialised to -1)
and `last_emit_time` (initialised to 0.0). -/
structure ThrottleState where
  lastEmittedStep : ℤ
  lastEmitTime : ℚ
  deriving Repr, DecidableEq

/-- The throttle guard of `on_progress` (lines 300-303): the callback
returns early iff the step did not change AND the minimum interval has not
passed. -/
def throttleSkips (st : ThrottleState) (currentStep : ℤ) (currentTime : ℚ) : Bool :=
  currentStep == st.lastEmittedStep && decide (currentTime - st.lastEmitTime < minEmitInterval)

/-- One `on_progress` callback: returns the updated throttle state and
whether an emission (job-record patch via `update_job_status` followed by
`publish_progress`) happened. -/
def onProgressStep (st : ThrottleState) (currentStep : ℤ) (currentTime : ℚ) :
    ThrottleState × Bool :=
  if throttleSkips st currentStep currentTime then (st, false)
  else ({ lastEmittedStep := currentStep, lastEmitTime := currentTime }, true)

/-- `_mark_job_completed` (lines 501-525): publishes the terminal
`completed` event unconditionally. -/
def markJobCompleted (stream : List ProgressEvent) (jobId : String) : List ProgressEvent :=
  publishProgress stream ⟨jobId, "completed", 100, "Job completed successfully"⟩

/-- `_mark_job_failed` (lines 527-543): publishes the terminal `failed`
event unconditionally. -/
def markJobFailed (stream : List ProgressEvent) (jobId error : String) : List ProgressEvent :=
  publishProgress stream ⟨jobId, "failed", 0, "Job failed: " ++ error⟩

/-! ## Worker derived metrics (`job_processor.py` 308-319) -/

/-- Derived `(iteration_speed, eta_seconds)` computed by the worker
`on_progress` for an emitted event: both default to `0`; when
`current_step > 0` and `elapsed_seconds > 0` the speed is the cumulative
average `current_step / elapsed_seconds` and
`eta_seconds = int(remaining_steps / iteration_speed)` when the speed is
positive. -/
def trainingMetrics (currentStep totalSteps : ℤ) (elapsedSeconds : ℚ) : ℚ × ℤ :=
  if 0 < currentStep ∧ 0 < elapsedSeconds then
    let speed : ℚ := (currentStep : ℚ) / elapsedSeconds
    let remaining : ℤ := totalSteps - currentStep
    if 0 < speed then (speed, intTrunc ((remaining : ℚ) / speed)) else (speed, 0)
  else (0, 0)

/-! ## Worker stream dispatch (`job_processor.py` 161-194) -/

def STREAM_TRAINING : String := "isengard:jobs:training"

def STREAM_GENERATION : String := "isengard:jobs:generation"

/-- One `redis_client.consume_jobs` invocation as issued by
`get_next_job`: which stream was read and with which blocking budget. -/
structure ConsumeCall where
  stream : String
  count : ℕ
  blockMs : ℤ
  deriving Repr, DecidableEq

/-- `JobProcessor.get_next_job(timeout)`: consume the training stream with
`block_ms = int(timeout * 500)`, and only when it yields nothing consume
the generation stream with the same budget; `None` when both are empty.
The two pending streams are abstracted as the lists of not-yet-delivered
messages; `consume_jobs(count=1)` pops the head.  Returns the list of
consume calls issued and the delivered job with its stream. -/
def getNextJob {α : Type} (timeout : ℚ) (trainingJobs generationJobs : List α) :
    List ConsumeCall × Option (α × String) :=
  let halfBlock : ℤ := intTrunc (timeout * 500)
  let c1 : ConsumeCall := ⟨STREAM_TRAINING, 1, halfBlock⟩
  match trainingJobs with
  | j :: _ => ([c1], some (j, STREAM_TRAINING))
  | [] =>
    let c2 : ConsumeCall := ⟨STREAM_GENERATION, 1, halfBlock⟩
    match generationJobs with
    | j :: _ => ([c1, c2], some (j, STREAM_GENERATION))
    | [] => ([c1, c2], none)

/-! ## Python values

A small universe of Python values as they occur in configs and job
records. -/

inductive PyVal where
  | none
  | bool (b : Bool)
  | int (n : ℤ)
  | float (q : ℚ)
  | str (s : String)
  deriving Repr, DecidableEq, Inhabited

/-- Python truthiness for the values above. -/
def PyVal.truthy : PyVal → Bool
  | .none => false
  | .bool b => b
  | .int n => n != 0
  | .float q => q != 0
  | .str s => s != ""

/-- Numeric view: Python `bool` is an `int`; `int` and `float` compare as
numbers; other values are not numeric. -/
def PyVal.num? : PyVal → Option ℚ
  | .bool b => some (if b then 1 else 0)
  | .int n => some (n : ℚ)
  | .float q => some q
  | _ => Option.none

/-! ## Job store (`src/packages/shared/src/redis_client.py` 204-236) -/

/-- The Redis-backed job store: `isengard:jobs:data:{id}` keys (full
record JSON) and the `isengard:jobs:index` hash (id → status). -/
structure JobStore where
  data : Dict (Dict PyVal)
  index : Dict String
  deriving Repr, DecidableEq

/-- `save_job`: `SET` the record and `HSET` the index to
`job_data.get("status", "unknown")`. -/
def saveJob (st : JobStore) (jobId : String) (record : Dict PyVal) : JobStore :=
  let statusStr : String :=
    match dictGet record "status" with
    | some (.str s) => s
    | some v => toString (repr v)
    | Option.none => "unknown"
  { data := dictSet st.data jobId record,
    index := dictSet st.index jobId statusStr }

/-- `get_job`: read the record, `None` when absent. -/
def getJob (st : JobStore) (jobId : String) : Option (Dict PyVal) :=
  dictGet st.data jobId

/-- `update_job_status(job_id, status, **extra_fields)`: read the current
record, return silently when it does not exist, otherwise set `status`,
merge the extra fields and save back. -/
def updateJobStatus (st : JobStore) (jobId status : String) (extraFields : Dict PyVal) :
    JobStore :=
  match getJob st jobId with
  | Option.none => st
  | some jobData =>
    let jobData1 := dictSet jobData "status" (.str status)
    let jobData2 := extraFields.foldl (fun d kv => dictSet d kv.1 kv.2) jobData1
    saveJob st jobId jobData2

/-! ## Training cancel route (`src/apps/api/src/routes/training.py` 261-292) -/

/-- Errors surfaced by route handlers and the validator: an
`HTTPException(status_code, detail)` or a Python-level `TypeError` from an
unsupported comparison. -/
inductive PyError where
  | http (statusCode : ℕ) (detail : String)
  | typeError
  deriving Repr, DecidableEq

/-- The job record as the training routes see it (`TrainingJob` model);
only the fields `cancel_training` touches are kept. -/
structure TrainingJob where
  id : String
  status : String
  progress : ℚ
  deriving Repr, DecidableEq

/-- Result of a successful cancel: the updated store, the progress stream
after the optional publish, and the returned job. -/
structure CancelOutcome where
  store : Dict TrainingJob
  events : List ProgressEvent
  response : TrainingJob
  deriving Repr, DecidableEq

/-- `cancel_training(job_id)`: 404 when the job is unknown; a 400
`resource.conflict` when its status is terminal (the store is untouched);
otherwise the record's status becomes `cancelled` and is saved, and in
queue mode (`USE_REDIS`) a `cancelled` event is published on the progress
stream.  The job store abstracts over the Redis and the in-memory
backend, which `cancel_training` treats identically apart from the
publish. -/
def cancelTraining (useRedis : Bool) (store : Dict TrainingJob)
    (events : List ProgressEvent) (jobId : String) :
    Except PyError CancelOutcome :=
  match dictGet store jobId with
  | Option.none => .error (.http 404 ("Training job " ++ jobId ++ " not found"))
  | some job =>
    if isTerminalStatus job.status then
      .error (.http 400 ("Cannot cancel job in " ++ job.status ++ " state"))
    else
      let cancelled := { job with status := "cancelled" }
      let newStore := dictSet store jobId cancelled
      let newEvents :=
        if useRedis then
          publishProgress events ⟨jobId, "cancelled", job.progress, "Job cancelled by user"⟩
        else events
      .ok ⟨newStore, newEvents, cancelled⟩

/-! ## Config validator (`src/apps/api/src/services/config_validator.py`) -/

/-- A toggle entry of the capability schema: `{supported, reason?}`. -/
structure ToggleSchema where
  supported : Bool
  reason : Option String
  deriving Repr, DecidableEq

/-- A parameter entry of the capability schema. -/
structure ParamSchema where
  ptype : String
  minVal : Option ℚ
  maxVal : Option ℚ
  options : List PyVal
  wired : Bool
  reason : Option String
  deriving Repr, DecidableEq

/-- Plugin capabilities as `validate_generation_config` reads them. -/
structure Capabilities where
  backend : String
  toggles : Dict ToggleSchema
  params : Dict ParamSchema
  deriving Repr, DecidableEq

/-- `config.get(key, False)` for the toggle check; the default `False` is
falsy, like the `.none` placeholder. -/
def configGet (config : Dict PyVal) (k : String) : PyVal :=
  (dictGet config k).getD .none

/-- The fixed toggle list of `validate_generation_config` (line 82). -/
def toggleKeys : List String :=
  ["use_upscale", "use_controlnet", "use_ipadapter", "use_facedetailer"]

/-- Detail string of a toggle rejection (line 90). -/
def toggleRejectDetail (toggleKey backend reason : String) : String :=
  "Feature \x27" ++ toggleKey ++ "\x27 not supported by " ++ backend ++ ": " ++ reason

/-- Effective schema of a toggle: `toggles.get(toggle_key, {})` with
`.get("supported", False)` / `.get("reason", "Not supported")`. -/
def toggleSchemaOf (toggles : Dict ToggleSchema) (k : String) : ToggleSchema :=
  (dictGet toggles k).getD ⟨false, Option.none⟩

/-- The toggle loop of `validate_generation_config` (lines 82-91): for
each key of the fixed list in order, a truthy config value whose toggle is
not supported raises the 400 rejection. -/
def checkToggles (config : Dict PyVal) (toggles : Dict ToggleSchema) (backend : String) :
    List String → Except PyError Unit
  | [] => .ok ()
  | k :: rest =>
    if (configGet config k).truthy then
      let schema := toggleSchemaOf toggles k
      if !schema.supported then
        .error (.http 400 (toggleRejectDetail k backend (schema.reason.getD "Not supported")))
      else checkToggles config toggles backend rest
    else checkToggles config toggles backend rest

/-- Detail string of an unwired-parameter rejection (line 110). -/
def paramRejectDetail (key backend reason : String) : String :=
  "Parameter \x27" ++ key ++ "\x27 not supported by " ++ backend ++ ": " ++ reason

/-- `_validate_param_value` (lines 117-173): range check for numerics
(a non-numeric value in a numeric comparison is a Python `TypeError`),
membership for enums, `isinstance(value, bool)` for `bool`. -/
def validateParamValue (key : String) (v : PyVal) (schema : ParamSchema) :
    Except PyError Unit :=
  if schema.ptype == "int" || schema.ptype == "float" then
    match v with
    | .none => .ok ()
    | _ =>
      match v.num? with
      | Option.none => .error .typeError
      | some q =>
        match schema.minVal with
        | some lo =>
          if q < lo then
            .error (.http 400 ("Parameter \x27" ++ key ++ "\x27 value below minimum"))
          else
            match schema.maxVal with
            | some hi =>
              if hi < q then
                .error (.http 400 ("Parameter \x27" ++ key ++ "\x27 value above maximum"))
              else .ok ()
            | Option.none => .ok ()
        | Option.none =>
          match schema.maxVal with
          | some hi =>
            if hi < q then
              .error (.http 400 ("Parameter \x27" ++ key ++ "\x27 value above maximum"))
            else .ok ()
          | Option.none => .ok ()
  else if schema.ptype == "enum" then
    match v with
    | .none => .ok ()
    | _ =>
      if schema.options.contains v then .ok ()
      else .error (.http 400 ("Parameter \x27" ++ key ++ "\x27 value not in allowed options"))
  else if schema.ptype == "bool" then
    match v with
    | .none => .ok ()
    | .bool _ => .ok ()
    | _ => .error (.http 400 ("Parameter \x27" ++ key ++ "\x27 must be a boolean"))
  else .ok ()

/-- The parameter loop of `validate_generation_config` (lines 94-114):
skip `prompt`, `negative_prompt`, `lora_id` and every `use_*` field, skip
unknown parameters, reject unwired ones, then range-check. -/
def checkParams (caps : Capabilities) : List (String × PyVal) → Except PyError Unit
  | [] => .ok ()
  | (k, v) :: rest =>
    if k == "prompt" || k == "negative_prompt" || k == "lora_id"
        || "use_".data.isPrefixOf k.data then
      checkParams caps rest
    else
      match dictGet caps.params k with
      | Option.none => checkParams caps rest
      | some schema =>
        if !schema.wired then
          .error (.http 400 (paramRejectDetail k caps.backend (schema.reason.getD "Not supported")))
        else
          match validateParamValue k v schema with
          | .ok () => checkParams caps rest
          | .error e => .error e

/-- `validate_generation_config(config, capabilities)`: the toggle check
followed by the per-field parameter check. -/
def validateGenerationConfig (config : Dict PyVal) (caps : Capabilities) :
    Except PyError Unit :=
  match checkToggles config caps.toggles caps.backend toggleKeys with
  | .error e => .error e
  | .ok () => checkParams caps config

/-! ## UELR index update (`src/apps/api/src/routes/uelr.py` 312-359) -/

/-- An entry of the interactions index.  Only `interaction_id` (the dict
key and file name) and `started_at` (the sort key) influence the control
flow of `_update_index`; the remaining metadata fields are opaque
payload. -/
structure IndexEntry where
  interactionId : String
  startedAt : String
  deriving Repr, DecidableEq

def MAX_INTERACTIONS : ℕ := 1000

/-- `index[entry.interaction_id] = entry` on the loaded index dict. -/
def indexSet (index : List IndexEntry) (entry : IndexEntry) : List IndexEntry :=
  if index.any (fun e => e.interactionId == entry.interactionId) then
    index.map (fun e => if e.interactionId == entry.interactionId then entry else e)
  else
    index ++ [entry]

/-- `_update_index(interaction)` (lines 328-354): insert the entry; when
the index exceeds `MAX_INTERACTIONS`, rebind `index` to the newest 1000
entries by `started_at` (stable descending sort) and only then compute
`removed = set(index.keys()) - {kept ids}` — the ids whose files get
unlinked.  Returns the new index and the list of interaction ids whose
files are deleted. -/
def updateIndex (index : List IndexEntry) (entry : IndexEntry) :
    List IndexEntry × List String :=
  let index1 := indexSet index entry
  if MAX_INTERACTIONS < index1.length then
    let sortedEntries := index1.mergeSort (fun a b => b.startedAt ≤ a.startedAt)
    let kept := sortedEntries.take MAX_INTERACTIONS
    let index2 := kept
    let keptIds := kept.map (·.interactionId)
    let removed := (index2.map (·.interactionId)).filter (fun i => !keptIds.contains i)
    (index2, removed)
  else (index1, [])

/-! ## Progress fan-out (`redis_client.py` 321-349, `events.py` 211-262) -/

/-- `InMemoryEventBus.publish` history bookkeeping (lines 227-230): append
the event, then trim to the last `max_history` (default 100) when the cap
is exceeded. -/
def busPublishHistory (history : List ProgressEvent) (e : ProgressEvent) :
    List ProgressEvent :=
  let h := history ++ [e]
  if 100 < h.length then takeLastN 100 h else h

/-- `stream_progress` subscriber loop (lines 333-349): yield the events
after the cursor in order and return right after yielding an event whose
status is terminal.  The input list is the stream content after the
subscriber's cursor. -/
def streamProgressYield : List ProgressEvent → List ProgressEvent
  | [] => []
  | e :: rest =>
    if isTerminalStatus e.status then [e] else e :: streamProgressYield rest

/-! ## Rate limiter (`src/packages/shared/src/rate_limit.py` 33-76) -/

/-- Result triple of `RateLimiter.is_allowed`. -/
structure RateDecision where
  allowed : Bool
  remaining : ℤ
  retryAfter : ℤ
  deriving Repr, DecidableEq

/-- The bucket state for one key: the `[(timestamp, count), ...]` list. -/
abbrev RateBucket := List (ℚ × ℕ)

/-- Drop entries at or before `window_start` (line 54). -/
def windowFilter (reqs : RateBucket) (windowStart : ℚ) : RateBucket :=
  reqs.filter (fun p => decide (windowStart < p.1))

/-- `sum(count for _, count in ...)` (line 60). -/
def totalCount (reqs : RateBucket) : ℕ := (reqs.map (·.2)).sum

/-- `min(ts for ts, _ in ...)` over a non-empty bucket. -/
def oldestTs (e : ℚ × ℕ) (rest : RateBucket) : ℚ :=
  rest.foldl (fun m p => min m p.1) e.1

/-- `RateLimiter.is_allowed(key, max_requests, window_seconds)` at instant
`now` for one bucket: clean old entries, count the window, deny with
`remaining = 0` and `retry_after = int(oldest + window - now) + 1` when
the count reaches the limit, otherwise record `(now, 1)` and allow.
Returns the decision and the updated bucket. -/
def isAllowed (maxRequests windowSeconds : ℕ) (reqs : RateBucket) (now : ℚ) :
    RateDecision × RateBucket :=
  let windowStart := now - windowSeconds
  let kept := windowFilter reqs windowStart
  let total := totalCount kept
  if maxRequests ≤ total then
    let retryAfter : ℤ :=
      match kept with
      | [] => (windowSeconds : ℤ)
      | e :: rest => intTrunc (oldestTs e rest + windowSeconds - now) + 1
    (⟨false, 0, retryAfter⟩, kept)
  else
    (⟨true, (maxRequests : ℤ) - total - 1, 0⟩, kept ++ [(now, 1)])

/-- A sequence of `is_allowed` calls on one bucket at the given instants:
the per-call `(now, allowed)` log and the final bucket. -/
def rateLimiterRun (maxRequests windowSeconds : ℕ) :
    RateBucket → List ℚ → List (ℚ × Bool) × RateBucket
  | st, [] => ([], st)
  | st, t :: ts =>
    let step := isAllowed maxRequests windowSeconds st t
    let rest := rateLimiterRun maxRequests windowSeconds step.2 ts
    ((t, step.1.allowed) :: rest.1, rest.2)

/-- Calls the limiter allowed inside the sliding window `(s, s + W]`. -/
def allowedInWindow (log : List (ℚ × Bool)) (s : ℚ) (W : ℕ) : ℕ :=
  (log.filter (fun p => p.2 && decide (s < p.1) && decide (p.1 ≤ s + W))).length

/-- Recorded request mass inside the sliding window `(s, s + W]`. -/
def massInWindow (st : RateBucket) (s : ℚ) (W : ℕ) : ℕ :=
  totalCount (st.filter (fun p => decide (s < p.1) && decide (p.1 ≤ s + W)))

/-! ## Redaction (`src/packages/shared/src/logging.py` 72-92, 494-516)

The thirteen `REDACTION_PATTERNS` regexes all have the shape
"literal, then one greedy character-class run, …", and in each of them the
character following a class run in the pattern is excluded from that
class, so Python's leftmost-match `re.sub` semantics coincides with
greedy matching without backtracking.  The engine below implements
exactly that: `matchItems` matches one pattern at the start of a string,
`rsub` scans left to right replacing every non-overlapping match. -/

/-- One element of a redaction pattern: a literal, a greedy `class+`, or a
greedy `class*`. -/
inductive RItem where
  | lit (s : List Char)
  | plus (f : Char → Bool)
  | star (f : Char → Bool)

/-- Strip a literal prefix. -/
def stripLit : List Char → List Char → Option (List Char)
  | [], s => some s
  | _ :: _, [] => Option.none
  | c :: cs, d :: ds => if c == d then stripLit cs ds else Option.none

/-- Match a pattern at the start of `s`; returns the rest of the string
after the match. -/
def matchItems : List RItem → List Char → Option (List Char)
  | [], s => some s
  | RItem.lit l :: rest, s =>
    match stripLit l s with
    | some s1 => matchItems rest s1
    | Option.none => Option.none
  | RItem.plus f :: rest, s =>
    let run := s.takeWhile f
    if run.isEmpty then Option.none else matchItems rest (s.drop run.length)
  | RItem.star f :: rest, s => matchItems rest (s.drop (s.takeWhile f).length)

/-- `re.sub`: scan left to right, replace each match and resume after it
(all patterns below match at least one character; the fuel starts at the
string length, which the scan never exhausts). -/
def rsubGo (pat : List RItem) (rep : List Char) : ℕ → List Char → List Char
  | 0, s => s
  | _ + 1, [] => []
  | fuel + 1, c :: rest =>
    match matchItems pat (c :: rest) with
    | some remaining =>
      if remaining.length < rest.length + 1 then rep ++ rsubGo pat rep fuel remaining
      else c :: rsubGo pat rep fuel rest
    | Option.none => c :: rsubGo pat rep fuel rest

def rsub (pat : List RItem) (rep : List Char) (s : List Char) : List Char :=
  rsubGo pat rep s.length s

/-- `[A-Za-z0-9]`. -/
def reAlnum (c : Char) : Bool :=
  ('A' ≤ c && c ≤ 'Z') || ('a' ≤ c && c ≤ 'z') || ('0' ≤ c && c ≤ '9')

/-- `[A-Za-z0-9-]`. -/
def reAlnumDash (c : Char) : Bool := reAlnum c || c == '-'

/-- Python `\s` over ASCII. -/
def pySpace (c : Char) : Bool :=
  c == ' ' || c == '\t' || c == '\n' || c == '\r' || c == '\x0b' || c == '\x0c'

/-- `[^&\s]` (and the equal set `[^\s&]`). -/
def notAmpSpace (c : Char) : Bool := !(c == '&' || pySpace c)

/-- A `<prefix>_[A-Za-z0-9]+`-style secret pattern. -/
def secretPat (prefixStr : String) : List RItem :=
  [RItem.lit prefixStr.data, RItem.plus reAlnum]

/-- A `<key>=[^&\s]+`-style pattern. -/
def kvPat (keyStr : String) : List RItem :=
  [RItem.lit keyStr.data, RItem.plus notAmpSpace]

/-- A `/<root>/[^/]+/` home-path pattern. -/
def homePat (rootStr : String) : List RItem :=
  [RItem.lit rootStr.data, RItem.plus (fun c => !(c == '/')), RItem.lit "/".data]

/-- A `"key"\s*:\s*"[^"]+"` JSON-value pattern. -/
def jsonValPat (keyStr : String) : List RItem :=
  [RItem.lit ("\"" ++ keyStr ++ "\"").data, RItem.star pySpace, RItem.lit ":".data,
   RItem.star pySpace, RItem.lit "\"".data, RItem.plus (fun c => !(c == '"')),
   RItem.lit "\"".data]

/-- `REDACTION_PATTERNS` (logging.py lines 72-85), in order. -/
def redactionPatterns : List (List RItem × List Char) :=
  [(secretPat "hf_", "hf_***REDACTED***".data),
   ([RItem.lit "sk-".data, RItem.plus reAlnumDash], "sk-***REDACTED***".data),
   (secretPat "ghp_", "ghp_***REDACTED***".data),
   (secretPat "rpa_", "rpa_***REDACTED***".data),
   (homePat "/Users/", "/[HOME]/".data),
   (homePat "/home/", "/[HOME]/".data),
   (kvPat "token=", "token=***".data),
   (kvPat "password=", "password=***".data),
   (kvPat "api_key=", "api_key=***".data),
   (jsonValPat "password", "\"password\": \"***\"".data),
   (jsonValPat "token", "\"token\": \"***\"".data),
   (jsonValPat "api_key", "\"api_key\": \"***\"".data)]

/-- `redact_sensitive(text)`: apply every pattern in order. -/
def redactSensitive (s : List Char) : List Char :=
  redactionPatterns.foldl (fun text pr => rsub pr.1 pr.2 text) s

/-- String-level wrapper. -/
def redactString (s : String) : String :=
  String.mk (redactSensitive s.data)

/-- Does `pat` match anywhere in the string? -/
def hasMatch (pat : List RItem) : List Char → Bool
  | [] => (matchItems pat []).isSome
  | c :: rest => (matchItems pat (c :: rest)).isSome || hasMatch pat rest

/-- No redaction pattern matches anywhere in the string. -/
def noResidualMatch (s : List Char) : Bool :=
  redactionPatterns.all (fun pr => !(hasMatch pr.1 s))

/-- `JobLogger._append_to_job_log` (logging.py 494-516): the line written
to the per-job JSONL file is the redaction of the serialised record. -/
def jobLogLine (serialisedRecord : String) : String :=
  redactString serialisedRecord

/-! ## Helper lemmas -/

theorem takeLastN_length_le {α : Type} (n : ℕ) (l : List α) : (takeLastN n l).length ≤ n := by
  simp only [takeLastN, List.length_drop]
  omega

theorem takeLastN_suffix {α : Type} (n : ℕ) (l : List α) : takeLastN n l <:+ l :=
  List.drop_suffix _ _

theorem takeLastN_concat_getLast {α : Type} (n : ℕ) (hn : 0 < n) (l : List α) (e : α) :
    (takeLastN n (l ++ [e])).getLast? = some e := by
  have hlen : l.length + 1 - n ≤ l.length := by omega
  simp only [takeLastN, List.length_append, List.length_singleton]
  rw [List.drop_append_of_le_length hlen, List.getLast?_concat]

theorem find?_map_replace {β : Type} (k : String) (v : β) (d : Dict β)
    (h : d.any (fun p => p.1 == k) = true) :
    ((d.map (fun p => if p.1 == k then (k, v) else p)).find?
        (fun p => p.1 == k)) = some (k, v) := by
  induction d with
  | nil => simp at h
  | cons hd tl ih =>
    by_cases hk : hd.1 == k
    · simp only [List.map_cons, if_pos hk]
      rw [List.find?_cons_of_pos _ (by simp)]
    · have hkf : (hd.1 == k) = false := by simpa using hk
      simp only [List.any_cons, hkf, Bool.false_or] at h
      simp only [List.map_cons, if_neg hk]
      rw [List.find?_cons_of_neg _ (by simp [hkf])]
      exact ih h

theorem find?_append_new {β : Type} (k : String) (v : β) (d : Dict β)
    (h : d.any (fun p => p.1 == k) = false) :
    ((d ++ [(k, v)]).find? (fun p => p.1 == k)) = some (k, v) := by
  induction d with
  | nil => simp [List.find?]
  | cons hd tl ih =>
    simp only [List.any_cons, Bool.or_eq_false_iff] at h
    rw [List.cons_append, List.find?_cons_of_neg _ (by simp [h.1])]
    exact ih h.2

theorem dictGet_dictSet_self {β : Type} (d : Dict β) (k : String) (v : β) :
    dictGet (dictSet d k v) k = some v := by
  unfold dictGet dictSet
  by_cases h : d.any (fun p => p.1 == k)
  · rw [if_pos h, find?_map_replace k v d h]
    rfl
  · rw [if_neg h, find?_append_new k v d (Bool.eq_false_iff.mpr h)]
    rfl

/-! ## Claim C9 -/

/-- C9: `update_job_status` on a job id that has no stored record is a
silent no-op: the store (record data and jobs index alike) is returned
unchanged, and a subsequent `get_job` still returns nothing. -/
theorem update_job_status_missing_job_noop (st : JobStore) (jobId status : String)
    (extraFields : Dict PyVal) (h : getJob st jobId = Option.none) :
    updateJobStatus st jobId status extraFields = st ∧
      getJob (updateJobStatus st jobId status extraFields) jobId = Option.none := by
  unfold updateJobStatus
  rw [h]
  exact ⟨rfl, h⟩

/-- Witness for C9: the empty store at a concrete job id. -/
theorem update_job_status_missing_job_noop_witness :
    updateJobStatus ⟨[], []⟩ "train-a1b2" "running" [] = ⟨[], []⟩ ∧
      getJob (updateJobStatus ⟨[], []⟩ "train-a1b2" "running" []) "train-a1b2" =
        Option.none :=
  update_job_status_missing_job_noop ⟨[], []⟩ "train-a1b2" "running" [] (by rfl)

/-! ## Claim C4 -/

/-- C4 counterexample: with a previous emission at step 1, time 1 s, a
callback at step 3, time 2 s (training started at 0 s) is emitted, yet
the derived `iteration_speed` is the cumulative average `3 / 2`, not the
instantaneous rate `(3 - 1) / (2 - 1) = 2` the claim asserts. -/
theorem worker_metrics_not_instantaneous_cex :
    (onProgressStep ⟨1, 1⟩ 3 2).2 = true ∧
      (trainingMetrics 3 10 2).1 = 3 / 2 ∧
      ((3 : ℚ) - 1) / (2 - 1) = 2 ∧
      (trainingMetrics 3 10 2).1 ≠ ((3 : ℚ) - 1) / (2 - 1) := by
  refine ⟨by decide, by norm_num [trainingMetrics, intTrunc], by norm_num, ?_⟩
  norm_num [trainingMetrics, intTrunc]

/-- C4 (amended): for each emitted progress event the worker derives the
cumulative average `iteration_speed = current_step / elapsed_seconds`
(not an instantaneous rate), and
`eta_seconds = int((total_steps - current_step) / iteration_speed)`,
both defaulting to zero unless `current_step > 0` and elapsed time is
positive. -/
theorem worker_metrics_cumulative_average (currentStep totalSteps : ℤ) (elapsed : ℚ) :
    (0 < currentStep → 0 < elapsed →
      trainingMetrics currentStep totalSteps elapsed =
        ((currentStep : ℚ) / elapsed,
          intTrunc (((totalSteps - currentStep : ℤ) : ℚ) / ((currentStep : ℚ) / elapsed)))) ∧
      (¬(0 < currentStep ∧ 0 < elapsed) →
        trainingMetrics currentStep totalSteps elapsed = (0, 0)) := by
  constructor
  · intro hs he
    have hq : (0 : ℚ) < (currentStep : ℚ) := by exact_mod_cast hs
    have hspeed : 0 < (currentStep : ℚ) / elapsed := div_pos hq he
    unfold trainingMetrics
    rw [if_pos ⟨hs, he⟩, if_pos hspeed]
  · intro h
    unfold trainingMetrics
    rw [if_neg h]

/-- Witness for C4: the amended formulas evaluated at step 3 of 10 after
2 s, and the zero default at step 0. -/
theorem worker_metrics_cumulative_average_witness :
    trainingMetrics 3 10 2 = (3 / 2, 4) ∧ trainingMetrics 0 10 2 = (0, 0) := by
  constructor
  · have h := (worker_metrics_cumulative_average 3 10 2).1 (by decide) (by norm_num)
    rw [h]
    norm_num [intTrunc]
  · exact (worker_metrics_cumulative_average 0 10 2).2 (by simp)

/-! ## Claim C5 -/

/-- C5: `get_next_job(timeout)` first consumes the training stream
blocking for half the overall timeout (`int(timeout * 500)` ms, i.e.
`timeout * 1000 / 2`), consults the generation stream with the same
half-budget only when training returned nothing, and returns `None` when
both streams are empty. -/
theorem worker_get_next_job_round_robin {α : Type} (timeout : ℚ)
    (trainingJobs generationJobs : List α) :
    (∀ c ∈ (getNextJob timeout trainingJobs generationJobs).1,
        c.blockMs = intTrunc (timeout * 1000 / 2) ∧ c.count = 1) ∧
      ((getNextJob timeout trainingJobs generationJobs).1.head? =
        some ⟨STREAM_TRAINING, 1, intTrunc (timeout * 500)⟩) ∧
      (∀ j rest, trainingJobs = j :: rest →
        getNextJob timeout trainingJobs generationJobs =
          ([⟨STREAM_TRAINING, 1, intTrunc (timeout * 500)⟩], some (j, STREAM_TRAINING))) ∧
      (trainingJobs = [] → ∀ j rest, generationJobs = j :: rest →
        getNextJob timeout trainingJobs generationJobs =
          ([⟨STREAM_TRAINING, 1, intTrunc (timeout * 500)⟩,
            ⟨STREAM_GENERATION, 1, intTrunc (timeout * 500)⟩],
            some (j, STREAM_GENERATION))) ∧
      (trainingJobs = [] → generationJobs = [] →
        (getNextJob timeout trainingJobs generationJobs).2 = none) := by
  have hhalf : timeout * 1000 / 2 = timeout * 500 := by ring
  refine ⟨?_, ?_, ?_, ?_, ?_⟩
  · intro c hc
    cases trainingJobs with
    | cons j rest =>
      simp only [getNextJob, List.mem_singleton] at hc
      subst hc
      exact ⟨by rw [hhalf], rfl⟩
    | nil =>
      cases generationJobs with
      | cons j rest =>
        simp only [getNextJob, List.mem_cons, List.mem_singleton, List.not_mem_nil,
          or_false] at hc
        rcases hc with hc | hc <;> (subst hc; exact ⟨by rw [hhalf], rfl⟩)
      | nil =>
        simp only [getNextJob, List.mem_cons, List.mem_singleton, List.not_mem_nil,
          or_false] at hc
        rcases hc with hc | hc <;> (subst hc; exact ⟨by rw [hhalf], rfl⟩)
  · cases trainingJobs with
    | cons j rest => rfl
    | nil => cases generationJobs with
      | cons j rest => rfl
      | nil => rfl
  · intro j rest hT
    subst hT
    rfl
  · intro hT j rest hG
    subst hT; subst hG
    rfl
  · intro hT hG
    subst hT; subst hG
    rfl

/-- Witness for C5: concrete stream contents (jobs as strings). -/
theorem worker_get_next_job_round_robin_witness :
    getNextJob (5 : ℚ) (["t1"] : List String) ["g1"] =
        ([⟨STREAM_TRAINING, 1, 2500⟩], some ("t1", STREAM_TRAINING)) ∧
      getNextJob (5 : ℚ) ([] : List String) ["g1"] =
        ([⟨STREAM_TRAINING, 1, 2500⟩, ⟨STREAM_GENERATION, 1, 2500⟩],
          some ("g1", STREAM_GENERATION)) ∧
      (getNextJob (5 : ℚ) ([] : List String) ([] : List String)).2 = none := by
  have h1 := ((worker_get_next_job_round_robin (5 : ℚ) (["t1"] : List String) ["g1"]).2.2.1)
    "t1" [] rfl
  have h2 := ((worker_get_next_job_round_robin (5 : ℚ) ([] : List String) ["g1"]).2.2.2.1)
    rfl "g1" [] rfl
  have h3 := ((worker_get_next_job_round_robin (5 : ℚ) ([] : List String)
    ([] : List String)).2.2.2.2) rfl rfl
  have htrunc : intTrunc ((5 : ℚ) * 500) = 2500 := by norm_num [intTrunc]
  rw [htrunc] at h1 h2
  exact ⟨h1, h2, h3⟩

/-! ## Claim C1 -/

/-- The emission flag of `on_progress` is the negation of the throttle
guard. -/
theorem onProgressStep_snd (st : ThrottleState) (s : ℤ) (t : ℚ) :
    (onProgressStep st s t).2 = !(throttleSkips st s t) := by
  unfold onProgressStep
  by_cases h : throttleSkips st s t = true
  · rw [if_pos h, h]
    rfl
  · rw [if_neg h]
    simp only [Bool.not_eq_true] at h
    rw [h]
    rfl

/-- The throttle guard is down exactly when the step changed or the
minimum interval elapsed. -/
theorem throttleSkips_eq_false_iff (st : ThrottleState) (s : ℤ) (t : ℚ) :
    throttleSkips st s t = false ↔
      (s ≠ st.lastEmittedStep ∨ minEmitInterval ≤ t - st.lastEmitTime) := by
  rw [← Bool.not_eq_true]
  simp only [throttleSkips, Bool.and_eq_true, beq_iff_eq, decide_eq_true_eq, not_and_or,
    not_lt]

/-- C1 counterexample: with the last emission at step 5 and time 0 s, a
callback at step 6 only 0.1 s later is emitted by the code, although the
claim (step advanced AND ≥ 0.5 s elapsed) forbids the emission. -/
theorem worker_throttle_not_conjunctive_cex :
    (onProgressStep ⟨5, 0⟩ 6 (1/10)).2 = true ∧
      ¬((6 : ℤ) ≠ 5 ∧ minEmitInterval ≤ (1/10 : ℚ) - 0) := by
  constructor
  · decide
  · intro h
    have := h.2
    norm_num [minEmitInterval] at this

/-- C1 (amended): during worker training execution a progress emission
(job-record patch plus publish on the progress stream) happens iff the
plugin-reported `current_step` changed since the last emitted event OR at
least `min_emit_interval` (500 ms) elapsed since the last emission — the
throttle skips only when both conditions fail — and the terminal
`completed` / `failed` events are published unconditionally, bypassing
the throttle. -/
theorem worker_progress_emission_iff :
    (∀ (st : ThrottleState) (s : ℤ) (t : ℚ),
        (onProgressStep st s t).2 = true ↔
          (s ≠ st.lastEmittedStep ∨ minEmitInterval ≤ t - st.lastEmitTime)) ∧
      (∀ (stream : List ProgressEvent) (jobId : String),
        (markJobCompleted stream jobId).getLast? =
          some ⟨jobId, "completed", 100, "Job completed successfully"⟩) ∧
      (∀ (stream : List ProgressEvent) (jobId error : String),
        (markJobFailed stream jobId error).getLast? =
          some ⟨jobId, "failed", 0, "Job failed: " ++ error⟩) := by
  refine ⟨?_, ?_, ?_⟩
  · intro st s t
    rw [onProgressStep_snd, Bool.not_eq_eq_eq_not, Bool.not_true]
    exact throttleSkips_eq_false_iff st s t
  · intro stream jobId
    exact takeLastN_concat_getLast 100 (by norm_num) stream _
  · intro stream jobId error
    exact takeLastN_concat_getLast 100 (by norm_num) stream _

/-! ## Claim C8 -/

/-- C8: a cancel on a job in a terminal status fails with the 400
resource-conflict error before any mutation (the error carries no store,
so the stored record is untouched); on a non-terminal job the record is
saved with status `cancelled`, and in queue mode the `cancelled` event is
the one just published on the progress stream. -/
theorem cancel_training_guard (useRedis : Bool) (store : Dict TrainingJob)
    (events : List ProgressEvent) (jobId : String) (job : TrainingJob)
    (hget : dictGet store jobId = some job) :
    (isTerminalStatus job.status = true →
        cancelTraining useRedis store events jobId =
          .error (.http 400 ("Cannot cancel job in " ++ job.status ++ " state"))) ∧
      (isTerminalStatus job.status = false →
        ∃ out, cancelTraining useRedis store events jobId = .ok out ∧
          out.store = dictSet store jobId { job with status := "cancelled" } ∧
          dictGet out.store jobId = some { job with status := "cancelled" } ∧
          out.response.status = "cancelled" ∧
          (useRedis = true →
            out.events.getLast? =
              some ⟨jobId, "cancelled", job.progress, "Job cancelled by user"⟩) ∧
          (useRedis = false → out.events = events)) := by
  constructor
  · intro hterm
    unfold cancelTraining
    rw [hget]
    simp only [hterm, if_true]
  · intro hterm
    refine ⟨⟨dictSet store jobId { job with status := "cancelled" },
      if useRedis then
        publishProgress events ⟨jobId, "cancelled", job.progress, "Job cancelled by user"⟩
      else events,
      { job with status := "cancelled" }⟩, ?_, rfl, ?_, rfl, ?_, ?_⟩
    · unfold cancelTraining
      rw [hget]
      simp only [hterm, Bool.false_eq_true, if_false]
    · exact dictGet_dictSet_self store jobId _
    · intro hr
      rw [if_pos hr]
      exact takeLastN_concat_getLast 100 (by norm_num) events _
    · intro hr
      rw [hr]
      simp

/-- Witness for C8: a terminal (`completed`) and a running job in
concrete stores. -/
theorem cancel_training_guard_witness :
    cancelTraining true [("j1", ⟨"j1", "completed", 100⟩)] [] "j1" =
        .error (.http 400 "Cannot cancel job in completed state") ∧
      ∃ out, cancelTraining true [("j2", ⟨"j2", "running", 25⟩)] [] "j2" = .ok out ∧
        dictGet out.store "j2" = some ⟨"j2", "cancelled", 25⟩ ∧
        out.events.getLast? = some ⟨"j2", "cancelled", 25, "Job cancelled by user"⟩ := by
  constructor
  · exact (cancel_training_guard true [("j1", ⟨"j1", "completed", 100⟩)] [] "j1"
      ⟨"j1", "completed", 100⟩ (by rfl)).1 (by rfl)
  · obtain ⟨out, h1, _, h3, _, h5, _⟩ :=
      (cancel_training_guard true [("j2", ⟨"j2", "running", 25⟩)] [] "j2"
        ⟨"j2", "running", 25⟩ (by rfl)).2 (by rfl)
    exact ⟨out, h1, h3, h5 rfl⟩

/-! ## Claim C3 -/

/-- The toggle loop accepts exactly when every truthy listed toggle is
supported. -/
theorem checkToggles_ok_iff (config : Dict PyVal) (toggles : Dict ToggleSchema)
    (backend : String) (keys : List String) :
    checkToggles config toggles backend keys = .ok () ↔
      ∀ k ∈ keys, (configGet config k).truthy = true →
        (toggleSchemaOf toggles k).supported = true := by
  induction keys with
  | nil => simp [checkToggles]
  | cons k rest ih =>
    by_cases ht : (configGet config k).truthy = true
    · by_cases hs : (toggleSchemaOf toggles k).supported = true
      · simp only [checkToggles, if_pos ht, hs, Bool.not_true, Bool.false_eq_true,
          if_false, ih, List.mem_cons]
        constructor
        · intro h k2 hk2
          rcases hk2 with rfl | hk2
          · intro _; exact hs
          · exact h k2 hk2
        · intro h k2 hk2
          exact h k2 (Or.inr hk2)
      · have hs2 : (toggleSchemaOf toggles k).supported = false := by
          simpa using hs
        simp only [checkToggles, if_pos ht, hs2, Bool.not_false, if_true]
        constructor
        · intro h; cases h
        · intro h
          have := h k (List.mem_cons_self k rest) ht
          rw [this] at hs2
          cases hs2
    · have ht2 : (configGet config k).truthy = false := by simpa using ht
      simp only [checkToggles, if_neg ht, ih, List.mem_cons]
      constructor
      · intro h k2 hk2
        rcases hk2 with rfl | hk2
        · intro hk2t; rw [hk2t] at ht2; cases ht2
        · exact h k2 hk2
      · intro h k2 hk2
        exact h k2 (Or.inr hk2)

/-- A toggle rejection names a truthy unsupported listed toggle and
carries the 400 detail echoing its reason. -/
theorem checkToggles_error_shape (config : Dict PyVal) (toggles : Dict ToggleSchema)
    (backend : String) (keys : List String) (e : PyError)
    (h : checkToggles config toggles backend keys = .error e) :
    ∃ k ∈ keys, (configGet config k).truthy = true ∧
      (toggleSchemaOf toggles k).supported = false ∧
      e = .http 400 (toggleRejectDetail k backend
        ((toggleSchemaOf toggles k).reason.getD "Not supported")) := by
  induction keys with
  | nil => simp [checkToggles] at h
  | cons k rest ih =>
    by_cases ht : (configGet config k).truthy = true
    · by_cases hs : (toggleSchemaOf toggles k).supported = true
      · simp only [checkToggles, if_pos ht, hs, Bool.not_true, Bool.false_eq_true,
          if_false] at h
        obtain ⟨k2, hk2, hrest⟩ := ih h
        exact ⟨k2, List.mem_cons_of_mem k hk2, hrest⟩
      · have hs2 : (toggleSchemaOf toggles k).supported = false := by simpa using hs
        simp only [checkToggles, if_pos ht, hs2, Bool.not_false, if_true,
          Except.error.injEq] at h
        exact ⟨k, List.mem_cons_self k rest, ht, hs2, h.symm⟩
    · rw [checkToggles, if_neg ht] at h
      obtain ⟨k2, hk2, hrest⟩ := ih h
      exact ⟨k2, List.mem_cons_of_mem k hk2, hrest⟩

/-- C3 counterexample: a truthy `use_*` config field outside the fixed
toggle list (`use_other`) with no capabilities entry is accepted by
`validate_generation_config`, although the claim requires rejection of
every truthy `use_*` field lacking a `supported: true` entry. -/
theorem generation_unknown_toggle_accepted_cex :
    validateGenerationConfig [("use_other", PyVal.bool true)] ⟨"mock", [], []⟩ = .ok () ∧
      (configGet [("use_other", PyVal.bool true)] "use_other").truthy = true ∧
      dictGet (Capabilities.mk "mock" [] []).toggles "use_other" = Option.none := by
  refine ⟨by rfl, by rfl, by rfl⟩

/-- C3 (amended): the generation toggle check inspects exactly the fixed
list `use_upscale, use_controlnet, use_ipadapter, use_facedetailer`: it
passes iff every truthy listed toggle has a `supported: true`
capabilities entry, and otherwise `validate_generation_config` rejects
with an HTTP 400 whose detail echoes the toggle's reason. -/
theorem generation_toggle_validation (config : Dict PyVal) (caps : Capabilities) :
    (checkToggles config caps.toggles caps.backend toggleKeys = .ok () ↔
        ∀ k ∈ toggleKeys, (configGet config k).truthy = true →
          (toggleSchemaOf caps.toggles k).supported = true) ∧
      (∀ e, checkToggles config caps.toggles caps.backend toggleKeys = .error e →
        (∃ k ∈ toggleKeys, (configGet config k).truthy = true ∧
            (toggleSchemaOf caps.toggles k).supported = false ∧
            e = .http 400 (toggleRejectDetail k caps.backend
              ((toggleSchemaOf caps.toggles k).reason.getD "Not supported"))) ∧
          validateGenerationConfig config caps = .error e) := by
  refine ⟨checkToggles_ok_iff config caps.toggles caps.backend toggleKeys, ?_⟩
  intro e he
  refine ⟨checkToggles_error_shape config caps.toggles caps.backend toggleKeys e he, ?_⟩
  unfold validateGenerationConfig
  rw [he]

/-- Witness for C3: a rejected `use_controlnet` submission (unsupported,
with a reason) and an accepted one (supported). -/
theorem generation_toggle_validation_witness :
    validateGenerationConfig [("use_controlnet", PyVal.bool true)]
        ⟨"comfyui", [("use_controlnet", ⟨false, some "ControlNet graph not wired"⟩)], []⟩ =
      .error (.http 400
        (toggleRejectDetail "use_controlnet" "comfyui" "ControlNet graph not wired")) ∧
      checkToggles [("use_controlnet", PyVal.bool true)]
        [("use_controlnet", ⟨true, Option.none⟩)] "comfyui" toggleKeys = .ok () := by
  constructor
  · have h := (generation_toggle_validation [("use_controlnet", PyVal.bool true)]
      ⟨"comfyui", [("use_controlnet", ⟨false, some "ControlNet graph not wired"⟩)], []⟩).2
      (.http 400 (toggleRejectDetail "use_controlnet" "comfyui" "ControlNet graph not wired"))
      (by rfl)
    exact h.2
  · have h := (generation_toggle_validation [("use_controlnet", PyVal.bool true)]
      ⟨"comfyui", [("use_controlnet", ⟨true, Option.none⟩)], []⟩).1
    exact h.mpr (by decide)

/-! ## Claim C2 -/

theorem filter_not_contains_self {α : Type} [BEq α] [LawfulBEq α] (l : List α) :
    l.filter (fun i => !l.contains i) = [] := by
  refine List.filter_eq_nil_iff.mpr ?_
  intro a ha
  simp [ha]

/-- C2: the file-eviction step of `_update_index` is dead code — because
`index` is rebound to the kept entries before `removed` is computed,
`removed = set(index.keys()) - {kept ids}` is always empty, so no
interaction file is ever unlinked, for any index and any inserted
entry. -/
theorem uelr_eviction_never_unlinks_files (index : List IndexEntry) (entry : IndexEntry) :
    (updateIndex index entry).2 = [] := by
  unfold updateIndex
  by_cases h : MAX_INTERACTIONS < (indexSet index entry).length
  · simp only [if_pos h]
    exact filter_not_contains_self _
  · simp only [if_neg h]

/-! ## Claim C7 -/

/-- The subscriber yields a prefix of the stream content after its
cursor. -/
theorem streamProgressYield_front (evs : List ProgressEvent) :
    streamProgressYield evs <+: evs := by
  induction evs with
  | nil => exact List.nil_prefix
  | cons a rest ih =>
    by_cases h : isTerminalStatus a.status = true
    · simp only [streamProgressYield, if_pos h]
      exact ⟨rest, rfl⟩
    · simp only [streamProgressYield, if_neg h]
      exact (List.cons_prefix_cons).mpr ⟨rfl, ih⟩

/-- Every yielded event except the last one is non-terminal. -/
theorem streamProgressYield_dropLast_not_terminal (evs : List ProgressEvent) :
    ∀ e ∈ (streamProgressYield evs).dropLast, isTerminalStatus e.status = false := by
  induction evs with
  | nil => simp [streamProgressYield]
  | cons a rest ih =>
    by_cases h : isTerminalStatus a.status = true
    · simp [streamProgressYield, h]
    · simp only [streamProgressYield, if_neg h]
      cases hy : streamProgressYield rest with
      | nil => simp
      | cons b tl =>
        intro e he
        rw [List.dropLast_cons₂] at he
        rcases List.mem_cons.mp he with rfl | he2
        · simpa using h
        · exact ih e (by rw [hy]; exact he2)

/-- When the stream contains a terminal event, the subscriber's last
yielded event is terminal. -/
theorem streamProgressYield_last_terminal (evs : List ProgressEvent)
    (hex : ∃ e ∈ evs, isTerminalStatus e.status = true) :
    ∃ last, (streamProgressYield evs).getLast? = some last ∧
      isTerminalStatus last.status = true := by
  induction evs with
  | nil => simp at hex
  | cons a rest ih =>
    by_cases h : isTerminalStatus a.status = true
    · exact ⟨a, by simp [streamProgressYield, h], h⟩
    · have hex2 : ∃ e ∈ rest, isTerminalStatus e.status = true := by
        rcases hex with ⟨e, he, htl⟩
        rcases List.mem_cons.mp he with rfl | h2
        · exact absurd htl h
        · exact ⟨e, h2, htl⟩
      obtain ⟨last, hl, htl⟩ := ih hex2
      refine ⟨last, ?_, htl⟩
      simp only [streamProgressYield, if_neg h]
      cases hy : streamProgressYield rest with
      | nil => rw [hy] at hl; simp at hl
      | cons b tl =>
        rw [List.getLast?_cons_cons]
        rw [hy] at hl
        exact hl

/-- C7: after every publish the per-job progress stream (capped `XADD`)
and the in-memory bus history retain at most the last 100 events — the
result is a suffix of the appended list of length at most 100 — and a
subscriber reading forward from its cursor yields a prefix of the
pending events, never yields past a terminal event, and ends on the
terminal event whenever one is pending. -/
theorem progress_retention_and_terminal_stop :
    (∀ (s : List ProgressEvent) (e : ProgressEvent),
        (publishProgress s e).length ≤ 100 ∧ publishProgress s e <:+ s ++ [e]) ∧
      (∀ (h : List ProgressEvent) (e : ProgressEvent),
        (busPublishHistory h e).length ≤ 100) ∧
      (∀ evs : List ProgressEvent,
        streamProgressYield evs <+: evs ∧
          (∀ e ∈ (streamProgressYield evs).dropLast, isTerminalStatus e.status = false) ∧
          ((∃ e ∈ evs, isTerminalStatus e.status = true) →
            ∃ last, (streamProgressYield evs).getLast? = some last ∧
              isTerminalStatus last.status = true)) := by
  refine ⟨?_, ?_, ?_⟩
  · intro s e
    exact ⟨takeLastN_length_le 100 _, takeLastN_suffix 100 _⟩
  · intro h e
    unfold busPublishHistory
    by_cases hlen : 100 < (h ++ [e]).length
    · simp only [if_pos hlen]
      exact takeLastN_length_le 100 _
    · simp only [if_neg hlen]
      omega
  · intro evs
    exact ⟨streamProgressYield_front evs, streamProgressYield_dropLast_not_terminal evs,
      streamProgressYield_last_terminal evs⟩

/-- Witness for C7: a stream with two running events and a `completed`
event followed by a spurious extra event: the subscriber yields exactly
through the terminal event. -/
theorem progress_retention_and_terminal_stop_witness :
    streamProgressYield
        [⟨"j", "running", 10, "a"⟩, ⟨"j", "running", 50, "b"⟩,
         ⟨"j", "completed", 100, "c"⟩, ⟨"j", "running", 99, "d"⟩] =
      [⟨"j", "running", 10, "a"⟩, ⟨"j", "running", 50, "b"⟩,
       ⟨"j", "completed", 100, "c"⟩] ∧
      ∃ last,
        (streamProgressYield
          [⟨"j", "running", 10, "a"⟩, ⟨"j", "running", 50, "b"⟩,
           ⟨"j", "completed", 100, "c"⟩, ⟨"j", "running", 99, "d"⟩]).getLast? = some last ∧
        isTerminalStatus last.status = true := by
  constructor
  · rfl
  · exact (progress_retention_and_terminal_stop.2.2 _).2.2
      ⟨⟨"j", "completed", 100, "c"⟩, by decide⟩

/-! ## Claim C10 -/

theorem totalCount_cons (a : ℚ × ℕ) (l : RateBucket) :
    totalCount (a :: l) = a.2 + totalCount l := by
  simp [totalCount]

theorem totalCount_append (l1 l2 : RateBucket) :
    totalCount (l1 ++ l2) = totalCount l1 + totalCount l2 := by
  simp [totalCount]

theorem totalCount_filter_le (p : ℚ × ℕ → Bool) (l : RateBucket) :
    totalCount (l.filter p) ≤ totalCount l := by
  induction l with
  | nil => simp
  | cons a tl ih =>
    rw [List.filter_cons, totalCount_cons]
    by_cases h : p a = true
    · rw [if_pos h, totalCount_cons]
      omega
    · rw [if_neg h]
      omega

theorem massInWindow_le_totalCount (l : RateBucket) (s : ℚ) (W : ℕ) :
    massInWindow l s W ≤ totalCount l :=
  totalCount_filter_le _ l

/-- Cleaning with a cutoff at or below `s` never removes in-window mass. -/
theorem massInWindow_windowFilter (st : RateBucket) (c s : ℚ) (W : ℕ) (hc : c ≤ s) :
    massInWindow (windowFilter st c) s W = massInWindow st s W := by
  unfold massInWindow windowFilter
  rw [List.filter_filter]
  apply congrArg totalCount
  apply List.filter_congr
  intro a _
  by_cases h1 : s < a.1
  · have hca : c < a.1 := lt_of_le_of_lt hc h1
    simp [h1, hca]
  · simp [h1]

theorem massInWindow_append_single (l : RateBucket) (t s : ℚ) (W : ℕ) :
    massInWindow (l ++ [(t, 1)]) s W =
      massInWindow l s W + (if s < t ∧ t ≤ s + W then 1 else 0) := by
  unfold massInWindow
  rw [List.filter_append, totalCount_append]
  by_cases h1 : s < t
  · by_cases h2 : t ≤ s + (W : ℚ)
    · simp [h1, h2, totalCount]
    · simp [h1, h2, totalCount]
  · simp [h1, totalCount]

theorem allowedInWindow_cons (t : ℚ) (b : Bool) (log : List (ℚ × Bool)) (s : ℚ) (W : ℕ) :
    allowedInWindow ((t, b) :: log) s W =
      (if (b && decide (s < t) && decide (t ≤ s + W)) = true then 1 else 0) +
        allowedInWindow log s W := by
  unfold allowedInWindow
  rw [List.filter_cons]
  by_cases h : (b && decide (s < t) && decide (t ≤ s + W)) = true
  · rw [if_pos h, if_pos h, List.length_cons]
    omega
  · rw [if_neg h, if_neg h]
    omega

/-- The head of a run: the per-call log is the decision at the first
instant followed by the log of the rest from the updated bucket. -/
theorem rateLimiterRun_cons (maxR W : ℕ) (st : RateBucket) (t : ℚ) (ts : List ℚ) :
    (rateLimiterRun maxR W st (t :: ts)).1 =
      (t, (isAllowed maxR W st t).1.allowed) ::
        (rateLimiterRun maxR W (isAllowed maxR W st t).2 ts).1 := by
  rfl

/-- When the bucket is over the limit the call is denied and the bucket
is merely cleaned. -/
theorem isAllowed_denied_eq (maxR W : ℕ) (st : RateBucket) (t : ℚ)
    (hd : maxR ≤ totalCount (windowFilter st (t - W))) :
    (isAllowed maxR W st t).1.allowed = false ∧
      (isAllowed maxR W st t).2 = windowFilter st (t - W) := by
  unfold isAllowed
  simp only [if_pos hd]
  exact ⟨trivial, trivial⟩

/-- Under the limit the call is allowed and `(now, 1)` is recorded. -/
theorem isAllowed_allowed_eq (maxR W : ℕ) (st : RateBucket) (t : ℚ)
    (hd : ¬ maxR ≤ totalCount (windowFilter st (t - W))) :
    (isAllowed maxR W st t).1.allowed = true ∧
      (isAllowed maxR W st t).2 = windowFilter st (t - W) ++ [(t, 1)] := by
  unfold isAllowed
  simp only [if_neg hd]
  exact ⟨trivial, trivial⟩

/-- Once every remaining call is past the window, no more allowed calls
land inside it. -/
theorem allowedInWindow_all_late (maxR W : ℕ) (s : ℚ) :
    ∀ (ts : List ℚ) (st : RateBucket), (∀ t ∈ ts, s + W < t) →
      allowedInWindow (rateLimiterRun maxR W st ts).1 s W = 0 := by
  intro ts
  induction ts with
  | nil =>
    intro st _
    simp [rateLimiterRun, allowedInWindow]
  | cons t rest ih =>
    intro st h
    rw [rateLimiterRun_cons, allowedInWindow_cons]
    have ht : s + (W : ℚ) < t := h t (List.mem_cons_self t rest)
    have hfalse : decide (t ≤ s + (W : ℚ)) = false := by
      simp [not_le.mpr ht]
    rw [ih (isAllowed maxR W st t).2 (fun u hu => h u (List.mem_cons_of_mem t hu))]
    simp [hfalse]

/-- Main invariant: starting from a bucket whose in-window mass is within
the limit, the allowed calls inside the window plus that mass stay within
the limit, provided the call instants are non-decreasing. -/
theorem rl_window_invariant (maxR W : ℕ) (s : ℚ) :
    ∀ (ts : List ℚ) (st : RateBucket), ts.Sorted (· ≤ ·) →
      massInWindow st s W ≤ maxR →
      allowedInWindow (rateLimiterRun maxR W st ts).1 s W + massInWindow st s W ≤ maxR := by
  intro ts
  induction ts with
  | nil =>
    intro st _ hm
    simpa [rateLimiterRun, allowedInWindow] using hm
  | cons t rest ih =>
    intro st hsort hm
    have hsort2 : rest.Sorted (· ≤ ·) := (List.sorted_cons.mp hsort).2
    have hlater : ∀ u ∈ rest, t ≤ u := (List.sorted_cons.mp hsort).1
    rw [rateLimiterRun_cons, allowedInWindow_cons]
    by_cases hwin2 : t ≤ s + (W : ℚ)
    · -- the call is at or before the window end: the cleaning cutoff
      -- t - W is at or below s, so in-window mass survives the cleaning
      have hcut : t - (W : ℚ) ≤ s := by linarith
      have hkeep : massInWindow (windowFilter st (t - W)) s W = massInWindow st s W :=
        massInWindow_windowFilter st (t - (W : ℚ)) s W hcut
      by_cases hd : maxR ≤ totalCount (windowFilter st (t - W))
      · -- denied: no head contribution, the bucket is only cleaned
        obtain ⟨hall, hst2⟩ := isAllowed_denied_eq maxR W st t hd
        have hmeq : massInWindow (isAllowed maxR W st t).2 s W = massInWindow st s W := by
          rw [hst2, hkeep]
        have hrec := ih (isAllowed maxR W st t).2 hsort2 (by rw [hmeq]; exact hm)
        rw [hmeq] at hrec
        simp only [hall, Bool.false_and, Bool.false_eq_true, if_false]
        omega
      · -- allowed: the bucket gains (t, 1)
        obtain ⟨hall, hst2⟩ := isAllowed_allowed_eq maxR W st t hd
        have htot : totalCount (windowFilter st (t - W)) < maxR := not_le.mp hd
        by_cases hwin1 : s < t
        · -- in-window allowed call: it is both logged and recorded
          have hm2 : massInWindow (isAllowed maxR W st t).2 s W =
              massInWindow st s W + 1 := by
            rw [hst2, massInWindow_append_single, hkeep, if_pos ⟨hwin1, hwin2⟩]
          have hm2le : massInWindow (isAllowed maxR W st t).2 s W ≤ maxR := by
            rw [hst2, massInWindow_append_single, hkeep, if_pos ⟨hwin1, hwin2⟩]
            have hmass := massInWindow_le_totalCount (windowFilter st (t - W)) s W
            rw [hkeep] at hmass
            omega
          have hrec := ih (isAllowed maxR W st t).2 hsort2 hm2le
          rw [hm2] at hrec
          have hcond : ((isAllowed maxR W st t).1.allowed && decide (s < t) &&
              decide (t ≤ s + (W : ℚ))) = true := by
            rw [hall]
            simp [hwin1, hwin2]
          rw [if_pos hcond]
          omega
        · -- early call (t ≤ s): recorded outside the window
          have hm2 : massInWindow (isAllowed maxR W st t).2 s W = massInWindow st s W := by
            rw [hst2, massInWindow_append_single, hkeep,
              if_neg (fun hc => hwin1 hc.1)]
            omega
          have hm2le : massInWindow (isAllowed maxR W st t).2 s W ≤ maxR := by
            rw [hm2]; exact hm
          have hrec := ih (isAllowed maxR W st t).2 hsort2 hm2le
          rw [hm2] at hrec
          have hhead : decide (s < t) = false := by simp [hwin1]
          simp only [hhead, Bool.and_false, Bool.false_and, Bool.false_eq_true, if_false]
          omega
    · -- the call is past the window; so is every later call
      have hrest : ∀ u ∈ rest, s + (W : ℚ) < u := fun u hu =>
        lt_of_lt_of_le (not_le.mp hwin2) (hlater u hu)
      rw [allowedInWindow_all_late maxR W s rest (isAllowed maxR W st t).2 hrest]
      have hfalse : decide (t ≤ s + (W : ℚ)) = false := by simp [hwin2]
      simp only [hfalse, Bool.and_false, Bool.false_eq_true, if_false]
      omega

theorem foldl_min_gt (c : ℚ) :
    ∀ (l : RateBucket) (a : ℚ), c < a → (∀ p ∈ l, c < p.1) →
      c < l.foldl (fun m p => min m p.1) a := by
  intro l
  induction l with
  | nil =>
    intro a ha _
    simpa using ha
  | cons p tl ih =>
    intro a ha hl
    exact ih (min a p.1) (lt_min ha (hl p (List.mem_cons_self p tl)))
      (fun q hq => hl q (List.mem_cons_of_mem p hq))

/-- A denial (with a positive limit) reports `remaining = 0` and a
`retry_after` of at least one second. -/
theorem isAllowed_denial_shape (maxR W : ℕ) (st : RateBucket) (now : ℚ)
    (hmax : 1 ≤ maxR) (hden : (isAllowed maxR W st now).1.allowed = false) :
    (isAllowed maxR W st now).1.remaining = 0 ∧
      1 ≤ (isAllowed maxR W st now).1.retryAfter := by
  by_cases hd : maxR ≤ totalCount (windowFilter st (now - W))
  · constructor
    · unfold isAllowed
      simp only [if_pos hd]
    · unfold isAllowed
      simp only [if_pos hd]
      cases hk : windowFilter st (now - W) with
      | nil =>
        rw [hk] at hd
        simp [totalCount] at hd
        omega
      | cons e rest =>
        have hmem : ∀ p ∈ windowFilter st (now - W), now - (W : ℚ) < p.1 := by
          intro p hp
          have := List.mem_filter.mp hp
          simpa using this.2
        have he : now - (W : ℚ) < e.1 := hmem e (by rw [hk]; exact List.mem_cons_self e rest)
        have hrest : ∀ p ∈ rest, now - (W : ℚ) < p.1 := fun p hp =>
          hmem p (by rw [hk]; exact List.mem_cons_of_mem e hp)
        have hold : now - (W : ℚ) < oldestTs e rest :=
          foldl_min_gt (now - (W : ℚ)) rest e.1 he hrest
        have hpos : 0 < oldestTs e rest + (W : ℚ) - now := by linarith
        have htr : 0 ≤ intTrunc (oldestTs e rest + (W : ℚ) - now) := by
          unfold intTrunc
          rw [if_pos (le_of_lt hpos)]
          exact Int.floor_nonneg.mpr (le_of_lt hpos)
        show (1 : ℤ) ≤ intTrunc (oldestTs e rest + (W : ℚ) - now) + 1
        omega
  · obtain ⟨hall, _⟩ := isAllowed_allowed_eq maxR W st now hd
    rw [hall] at hden
    cases hden

/-- C10: starting from an empty bucket and non-decreasing call instants,
`is_allowed` grants at most `max_requests` calls inside any sliding
window `(s, s + window_seconds]`; and whenever it denies (with a positive
limit), the reported remaining count is 0 and `retry_after` is at least
1. -/
theorem rate_limiter_sliding_window_and_denial (maxRequests windowSeconds : ℕ) :
    (∀ ts : List ℚ, ts.Sorted (· ≤ ·) → ∀ s : ℚ,
        allowedInWindow (rateLimiterRun maxRequests windowSeconds [] ts).1 s windowSeconds
          ≤ maxRequests) ∧
      (∀ (st : RateBucket) (now : ℚ), 1 ≤ maxRequests →
        (isAllowed maxRequests windowSeconds st now).1.allowed = false →
          (isAllowed maxRequests windowSeconds st now).1.remaining = 0 ∧
            1 ≤ (isAllowed maxRequests windowSeconds st now).1.retryAfter) := by
  constructor
  · intro ts hsort s
    have h := rl_window_invariant maxRequests windowSeconds s ts [] hsort
      (by simp [massInWindow, totalCount])
    simpa [massInWindow, totalCount] using h
  · intro st now hmax hden
    exact isAllowed_denial_shape maxRequests windowSeconds st now hmax hden

theorem windowFilter_keep_all (st : RateBucket) (c : ℚ) (h : ∀ p ∈ st, c < p.1) :
    windowFilter st c = st := by
  unfold windowFilter
  refine List.filter_eq_self.mpr ?_
  intro p hp
  simpa using h p hp

/-- Witness for C10: limit 1 per 1 s; the calls at instants 0, 1/4, 2
grant at most one inside the window `(−1/2, 1/2]`, and the denied second
call on a bucket already holding one request reports `remaining = 0` and
`retry_after ≥ 1`. -/
theorem rate_limiter_sliding_window_and_denial_witness :
    allowedInWindow (rateLimiterRun 1 1 [] [0, 1/4, 2]).1 (-(1/2)) 1 ≤ 1 ∧
      (isAllowed 1 1 [((0 : ℚ), (1 : ℕ))] (1/4)).1.remaining = 0 ∧
        1 ≤ (isAllowed 1 1 [((0 : ℚ), (1 : ℕ))] (1/4)).1.retryAfter := by
  have hsorted : ([0, 1/4, 2] : List ℚ).Sorted (· ≤ ·) := by
    rw [List.sorted_cons, List.sorted_cons, List.sorted_cons]
    refine ⟨?_, ?_, ?_, List.sorted_nil⟩
    · intro b hb
      rcases List.mem_cons.mp hb with rfl | hb
      · norm_num
      · rcases List.mem_singleton.mp hb with rfl
        norm_num
    · intro b hb
      rcases List.mem_singleton.mp hb with rfl
      norm_num
    · intro b hb
      exact absurd hb (List.not_mem_nil b)
  have hfil : windowFilter [((0 : ℚ), (1 : ℕ))] ((1/4 : ℚ) - ((1 : ℕ) : ℚ)) = [(0, 1)] := by
    apply windowFilter_keep_all
    intro p hp
    rcases List.mem_singleton.mp hp with rfl
    push_cast
    norm_num
  have hd : (1 : ℕ) ≤
      totalCount (windowFilter [((0 : ℚ), (1 : ℕ))] ((1/4 : ℚ) - ((1 : ℕ) : ℚ))) := by
    rw [hfil]
    simp [totalCount]
  have hden : (isAllowed 1 1 [((0 : ℚ), (1 : ℕ))] (1/4)).1.allowed = false :=
    (isAllowed_denied_eq 1 1 [((0 : ℚ), (1 : ℕ))] (1/4) hd).1
  exact ⟨(rate_limiter_sliding_window_and_denial 1 1).1 [0, 1/4, 2] hsorted (-(1/2)),
    (rate_limiter_sliding_window_and_denial 1 1).2 [((0 : ℚ), (1 : ℕ))] (1/4)
      (by norm_num) hden⟩

/-! ## Claim C6 -/

/-- A substitution pass over a string none of whose positions matches the
pattern is the identity. -/
theorem rsubGo_no_match (pat : List RItem) (rep : List Char) :
    ∀ (s : List Char), hasMatch pat s = false → ∀ fuel, rsubGo pat rep fuel s = s := by
  intro s
  induction s with
  | nil =>
    intro _ fuel
    cases fuel with
    | zero => rfl
    | succ n => rfl
  | cons c rest ih =>
    intro h fuel
    simp only [hasMatch, Bool.or_eq_false_iff] at h
    cases fuel with
    | zero => rfl
    | succ n =>
      have hnone : matchItems pat (c :: rest) = Option.none := by
        cases hm : matchItems pat (c :: rest) with
        | none => rfl
        | some r =>
          rw [hm] at h
          simp at h
      simp only [rsubGo, hnone]
      rw [ih h.2 n]

theorem rsub_no_match (pat : List RItem) (rep : List Char) (s : List Char)
    (h : hasMatch pat s = false) : rsub pat rep s = s :=
  rsubGo_no_match pat rep s h s.length

/-- Folding substitution passes over patterns none of which matches is
the identity. -/
theorem redact_foldl_no_match :
    ∀ (pats : List (List RItem × List Char)) (l : List Char),
      pats.all (fun pr => !(hasMatch pr.1 l)) = true →
      pats.foldl (fun text pr => rsub pr.1 pr.2 text) l = l := by
  intro pats
  induction pats with
  | nil =>
    intro l _
    rfl
  | cons p rest ih =>
    intro l h
    simp only [List.all_cons, Bool.and_eq_true, Bool.not_eq_true'] at h
    simp only [List.foldl_cons]
    rw [rsub_no_match p.1 p.2 l h.1]
    exact ih l h.2

/-- A serialised job-log record (the `json.dumps` output of
`JobLogger._build_record`) whose `msg` holds two home paths overlapping
at one slash. -/
def overlapHomePathRecord : String :=
  "\x7b\"ts\": \"2024-01-15T10:30:00.000Z\", \"level\": \"INFO\", \"service\": \"worker\", \"job_id\": \"train-a1b2\", \"msg\": \"/Users/a/Users/b/\"\x7d"

/-- A serialised job-log record with no sensitive content. -/
def benignRecord : String :=
  "\x7b\"ts\": \"2024-01-15T10:30:00.000Z\", \"level\": \"INFO\", \"service\": \"worker\", \"job_id\": \"train-a1b2\", \"msg\": \"Training started\"\x7d"

set_option maxRecDepth 10000 in
/-- C6 counterexample: the line `JobLogger` writes for a record whose
`msg` is `/Users/a/Users/b/` still contains the home path `/Users/b/`
(the first `re.sub` match consumes its leading slash), so a second
application of the redactor changes the written line: `redact_sensitive`
is not the identity on this written record. -/
theorem job_log_redaction_not_idempotent_cex :
    redactString (jobLogLine overlapHomePathRecord) ≠ jobLogLine overlapHomePathRecord := by
  decide

/-- C6 (amended): each per-job JSONL line is written after one full
redaction pass; the redactor is not idempotent on every written line
(overlapping home-path matches redact further on a second pass), but
every written line in which no redaction pattern finds a residual match
is a fixed point of `redact_sensitive`. -/
theorem job_log_redaction_fixed_when_clean (record : String)
    (h : noResidualMatch (jobLogLine record).data = true) :
    redactString (jobLogLine record) = jobLogLine record := by
  unfold redactString
  have hfix : redactSensitive (jobLogLine record).data = (jobLogLine record).data :=
    redact_foldl_no_match redactionPatterns _ h
  rw [hfix]

set_option maxRecDepth 10000 in
/-- Witness for C6: a benign record's written line has no residual match
and is a fixed point of the redactor. -/
theorem job_log_redaction_fixed_when_clean_witness :
    noResidualMatch (jobLogLine benignRecord).data = true ∧
      redactString (jobLogLine benignRecord) = jobLogLine benignRecord :=
  ⟨by decide, job_log_redaction_fixed_when_clean benignRecord (by decide)⟩

end Isengard
